import Mathlib

/-!
Verification development for the `chalk-engine` core slice
(`src/chalk-engine/src/slg.rs` and `src/chalk-engine/src/tables.rs`).

The Rust code is shallowly embedded:
* interned chalk-ir terms (`TyKind`, `ConstData`, `GenericArgData`,
  `Substitution`) become a mutual inductive family;
* a Rust `panic!`/failed `assert_eq!` (a fatal internal-invariant
  violation) is modelled as `Option.none`, while a recoverable
  `Fallible` error is modelled as `Except.error NoSolution`;
* the `MayInvalidate` methods of `slg.rs` become mutually recursive
  functions returning `Option Bool`.
-/

namespace ChalkEngine

/-- `PlaceholderIndex` of chalk-ir: a universe index plus an index within
the universe; `MayInvalidate.aggregate_placeholders` only compares it for
equality. -/
structure PlaceholderIndex where
  ui : Nat
  idx : Nat
deriving DecidableEq, Repr

/-- `LifetimeData` of chalk-ir.  The code in `slg.rs` never inspects a
lifetime (`aggregate_lifetimes` ignores both arguments), so only the
constructors needed to state the claims are modelled; `boundVar` is the
canonical bound-variable wildcard. -/
inductive Lifetime where
  | boundVar (idx : Nat)
  | inferenceVar (v : Nat)
  | placeholder (p : PlaceholderIndex)
  | lstatic
  | erased
deriving DecidableEq, Repr

mutual

/-- `TyKind` of chalk-ir, restricted to the variants that
`MayInvalidate::aggregate_tys` names in its match; the remaining chalk-ir
variants (`Function`, `Dyn`) only ever reach the final catch-all arm and
are kept as opaque constructors.  Identifiers (`AdtId`, `AssocTypeId`,
tuple arity, `FnDefId`, ...) are modelled as `Nat`, `Mutability` as
`Bool`, `Scalar` as `Nat`. -/
inductive Ty where
  | boundVar (idx : Nat)
  | inferenceVar (v : Nat)
  | placeholder (p : PlaceholderIndex)
  | aliasProjection (associated_ty_id : Nat) (substitution : Substitution)
  | aliasOpaque (opaque_ty_id : Nat) (substitution : Substitution)
  | adt (id : Nat) (substitution : Substitution)
  | associatedType (id : Nat) (substitution : Substitution)
  | scalar (s : Nat)
  | str
  | tuple (arity : Nat) (substitution : Substitution)
  | opaqueType (id : Nat) (substitution : Substitution)
  | slice (t : Ty)
  | fnDef (id : Nat) (substitution : Substitution)
  | ref (mutability : Bool) (lt : Lifetime) (t : Ty)
  | raw (mutability : Bool) (t : Ty)
  | never
  | array (t : Ty) (c : Const)
  | closure (id : Nat) (substitution : Substitution)
  | generator (id : Nat) (substitution : Substitution)
  | generatorWitness (id : Nat) (substitution : Substitution)
  | foreign (id : Nat)
  | error
  | function (n : Nat)
  | dyn (n : Nat)

/-- `ConstData` of chalk-ir: a type together with a const value. -/
inductive Const where
  | mk (ty : Ty) (value : ConstValue)

/-- `ConstValue` of chalk-ir; a concrete interned const is modelled as a
`Nat`. -/
inductive ConstValue where
  | boundVar (idx : Nat)
  | inferenceVar (v : Nat)
  | placeholder (p : PlaceholderIndex)
  | concrete (interned : Nat)

/-- `GenericArgData` of chalk-ir: a type, lifetime, or const argument. -/
inductive GenericArg where
  | ty (t : Ty)
  | lifetime (l : Lifetime)
  | const (c : Const)

/-- `Substitution` of chalk-ir: an ordered list of generic arguments. -/
inductive Substitution where
  | nil
  | cons (arg : GenericArg) (rest : Substitution)

end

/-- `Substitution::len`. -/
def Substitution.length : Substitution → Nat
  | .nil => 0
  | .cons _ s => s.length + 1

/-- View of a `Substitution` as a plain list, for stating properties about
its paired positions. -/
def Substitution.toList : Substitution → List GenericArg
  | .nil => []
  | .cons a s => a :: s.toList

/-- `MayInvalidate::aggregate_placeholders` (slg.rs): placeholders
invalidate iff they differ. -/
def aggregate_placeholders (new current : PlaceholderIndex) : Bool :=
  new != current

/-- `MayInvalidate::aggregate_lifetimes` (slg.rs): unconditionally returns
`true`, ignoring both lifetimes. -/
def aggregate_lifetimes (_new _current : Lifetime) : Bool :=
  true

/-- Modelled from the spec: `const_eq` is the interner-defined equality of
concrete const values at a given type (chalk-ir, not under `src/`);
concrete values being `Nat` here, it is `Nat` equality. -/
def const_eq (_ty : Ty) (c1 c2 : Nat) : Bool :=
  c1 == c2

mutual

/-- `MayInvalidate::aggregate_generic_args` (slg.rs): dispatch on the pair
of kinds; a kind mismatch is `panic!` (`none`). -/
def aggregate_generic_args (new current : GenericArg) : Option Bool :=
  match new, current with
  | .ty ty1, .ty ty2 => aggregate_tys ty1 ty2
  | .lifetime l1, .lifetime l2 => some (aggregate_lifetimes l1 l2)
  | .const c1, .const c2 => aggregate_consts c1 c2
  | _, _ => none
termination_by structural new

/-- `MayInvalidate::aggregate_tys` (slg.rs), arm for arm in source order.
The source delegates the nominal-head cases to
`aggregate_name_and_substs`; its body (head comparison, length
`assert_eq!`, then the zipped disjunction) is inlined at those arms so
that the recursion is structural — `aggregate_name_and_substs` below is
the source function itself and is definitionally equal to each inlined
arm. -/
def aggregate_tys (new current : Ty) : Option Bool :=
  match new, current with
  | _, .boundVar _ => some false
  | .boundVar _, _ => some true
  | .inferenceVar _, _ => none
  | _, .inferenceVar _ => none
  | .placeholder p1, .placeholder p2 => some (aggregate_placeholders p1 p2)
  | .aliasProjection n1 s1, .aliasProjection n2 s2 =>
      if n1 != n2 then some true
      else if s1.length != s2.length then none
      else aggregate_substs s1 s2
  | .aliasOpaque n1 s1, .aliasOpaque n2 s2 =>
      if n1 != n2 then some true
      else if s1.length != s2.length then none
      else aggregate_substs s1 s2
  | .adt n1 s1, .adt n2 s2 =>
      if n1 != n2 then some true
      else if s1.length != s2.length then none
      else aggregate_substs s1 s2
  | .associatedType n1 s1, .associatedType n2 s2 =>
      if n1 != n2 then some true
      else if s1.length != s2.length then none
      else aggregate_substs s1 s2
  | .scalar a, .scalar b => some (a != b)
  | .str, .str => some false
  | .tuple n1 s1, .tuple n2 s2 =>
      if n1 != n2 then some true
      else if s1.length != s2.length then none
      else aggregate_substs s1 s2
  | .opaqueType n1 s1, .opaqueType n2 s2 =>
      if n1 != n2 then some true
      else if s1.length != s2.length then none
      else aggregate_substs s1 s2
  | .slice t1, .slice t2 => aggregate_tys t1 t2
  | .fnDef n1 s1, .fnDef n2 s2 =>
      if n1 != n2 then some true
      else if s1.length != s2.length then none
      else aggregate_substs s1 s2
  | .ref m1 l1 t1, .ref m2 l2 t2 =>
      if m1 != m2 then some true
      else if aggregate_lifetimes l1 l2 then some true
      else aggregate_tys t1 t2
  | .raw m1 t1, .raw m2 t2 =>
      if m1 != m2 then some true
      else aggregate_tys t1 t2
  | .never, .never => some false
  | .array t1 c1, .array t2 c2 =>
      match aggregate_tys t1 t2 with
      | none => none
      | some true => some true
      | some false => aggregate_consts c1 c2
  | .closure n1 s1, .closure n2 s2 =>
      if n1 != n2 then some true
      else if s1.length != s2.length then none
      else aggregate_substs s1 s2
  | .generator n1 s1, .generator n2 s2 =>
      if n1 != n2 then some true
      else if s1.length != s2.length then none
      else aggregate_substs s1 s2
  | .generatorWitness n1 s1, .generatorWitness n2 s2 =>
      if n1 != n2 then some true
      else if s1.length != s2.length then none
      else aggregate_substs s1 s2
  | .foreign n1, .foreign n2 => some (n1 != n2)
  | .error, .error => some false
  | _, _ => some true
termination_by structural new

/-- `MayInvalidate::aggregate_consts` (slg.rs): first compare the two
types (an early `return true` when they may be unequal), then the two
const values; free inference variables `panic!` (`none`). -/
def aggregate_consts (new current : Const) : Option Bool :=
  match new, current with
  | .mk new_ty new_value, .mk current_ty current_value =>
      match aggregate_tys new_ty current_ty with
      | none => none
      | some true => some true
      | some false =>
        match new_value, current_value with
        | _, .boundVar _ => some false
        | .boundVar _, _ => some true
        | .inferenceVar _, _ => none
        | _, .inferenceVar _ => none
        | .placeholder p1, .placeholder p2 => some (aggregate_placeholders p1 p2)
        | .concrete c1, .concrete c2 => some (!(const_eq new_ty c1 c2))
        | _, _ => some true
termination_by structural new

/-- The `.iter().zip(...).any(...)` loop shared by
`SubstitutionExt::may_invalidate` and
`MayInvalidate::aggregate_name_and_substs` (slg.rs): short-circuiting
disjunction of `aggregate_generic_args` over paired positions, truncating
at the shorter substitution like `zip`; a `panic!` in a visited pair
propagates as `none`. -/
def aggregate_substs (new current : Substitution) : Option Bool :=
  match new, current with
  | .cons a as, .cons b bs =>
      match aggregate_generic_args a b with
      | none => none
      | some true => some true
      | some false => aggregate_substs as bs
  | _, _ => some false
termination_by structural new

end

/-- `MayInvalidate::aggregate_name_and_substs` (slg.rs): `true` when the
heads differ; equal heads with different substitution lengths fail the
`assert_eq!` (`none`); otherwise any paired argument may invalidate. -/
def aggregate_name_and_substs (new_name : Nat) (new_substitution : Substitution)
    (current_name : Nat) (current_substitution : Substitution) : Option Bool :=
  if new_name != current_name then some true
  else if new_substitution.length != current_substitution.length then none
  else aggregate_substs new_substitution current_substitution

/-- `Canonical<Substitution>` as used by `SubstitutionExt::may_invalidate`
(slg.rs), which reads only its `value` field. -/
structure CanonicalSubstitution where
  value : Substitution

/-- `SubstitutionExt::may_invalidate` (slg.rs): zip the new substitution
with the current aggregated one and ask whether any paired position may
invalidate. -/
def may_invalidate (self : Substitution) (subst : CanonicalSubstitution) : Option Bool :=
  aggregate_substs self subst.value

/-!
## ExClause and unification (slg.rs)
-/

/-- `Literal` (chalk-engine `lib.rs`, not under `src/`).  Modelled from
the spec: a subgoal literal is either Positive (must be proven) or
Negative (must be disproven); the goal itself is an opaque id. -/
inductive Literal where
  | positive (goal : Nat)
  | negative (goal : Nat)
deriving DecidableEq, Repr

/-- `ExClause` (chalk-engine `lib.rs`, not under `src/`).  Modelled from
the spec: a head substitution/constraint pack plus an ordered sequence of
subgoal literals; the pack, untouched by the operations under `src/`, is
abstracted as the opaque field `head`. -/
structure ExClause where
  head : Nat
  subgoals : List Literal
deriving DecidableEq, Repr

/-- `UnificationResult` (chalk-solve, not under `src/`).  Modelled from
the spec: the residual goals produced by a successful unification; goals
are opaque ids, as in `Literal`. -/
structure UnificationResult where
  goals : List Nat
deriving DecidableEq, Repr

/-- `NoSolution`: the recoverable "no solution" error of `Fallible`. -/
inductive NoSolution where
  | noSolution
deriving DecidableEq, Repr

/-- `into_ex_clause` (slg.rs): append the unification result's goals to
the ex-clause's subgoals as `Positive` literals. -/
def into_ex_clause (result : UnificationResult) (ex_clause : ExClause) : ExClause :=
  { ex_clause with
    subgoals := ex_clause.subgoals ++ result.goals.map Literal.positive }

/-- `TruncatingInferenceTable::unify_generic_args_into_ex_clause`
(slg.rs): `self.infer.unify(...)?` followed by `into_ex_clause`.  The
external unifier (chalk-solve, not under `src/`) is abstracted by its
outcome: the `?` operator propagates `Except.error` without touching the
ex-clause; on `Except.ok` the residual goals are appended.  The returned
pair is (the `Fallible<()>` result, the ex-clause after the `&mut`
borrow). -/
def unify_generic_args_into_ex_clause
    (unify_outcome : Except NoSolution UnificationResult)
    (ex_clause : ExClause) : Except NoSolution Unit × ExClause :=
  match unify_outcome with
  | .error e => (.error e, ex_clause)
  | .ok result => (.ok (), into_ex_clause result ex_clause)

/-- `SlgContext::next_subgoal_index` (slg.rs): always pick the last
subgoal in the list, `subgoals.len() - 1` (`Nat` truncated subtraction
stands in for the `usize` underflow panic on an empty list, which the
claims do not exercise). -/
def next_subgoal_index (ex_clause : ExClause) : Nat :=
  ex_clause.subgoals.length - 1

/-!
## The table registry (tables.rs)
-/

/-- `TableIndex` (chalk-engine, re-exported by `tables.rs`): a stable
memo handle, a plain index. -/
structure TableIndex where
  value : Nat
deriving DecidableEq, Repr

/-- `Table` (chalk-engine `table.rs`, not under `src/`).  Modelled from
the spec: a per-goal solving record keyed by its canonical goal
(`table_goal`, the only field `tables.rs` reads); the rest of the solving
state is abstracted as the opaque field `state`.  Canonical goals are
memo-key-equal iff structurally identical, so they are modelled as an
opaque id. -/
structure Table where
  table_goal : Nat
  state : Nat
deriving DecidableEq, Repr

/-- `FxHashMap::insert` semantics over an association-list model:
overwrite the value of an existing key in place, otherwise add the new
binding. -/
def hashmap_insert (m : List (Nat × TableIndex)) (k : Nat) (v : TableIndex) :
    List (Nat × TableIndex) :=
  if m.any (fun p => p.1 == k) then
    m.map (fun p => if p.1 == k then (k, v) else p)
  else m ++ [(k, v)]

/-- `FxHashMap::get` semantics over the association-list model. -/
def hashmap_get (m : List (Nat × TableIndex)) (k : Nat) : Option TableIndex :=
  (m.find? (fun p => p.1 == k)).map (fun p => p.2)

/-- `Tables` (tables.rs): the hash index from canonical goal to
`TableIndex` plus the growable sequence of tables. -/
structure Tables where
  table_indices : List (Nat × TableIndex)
  tables : List Table
deriving DecidableEq, Repr

/-- `Tables::new` (tables.rs). -/
def Tables.new : Tables :=
  { table_indices := [], tables := [] }

/-- `Tables::next_index` (tables.rs): the index that will be given to the
next table to be inserted. -/
def Tables.next_index (self : Tables) : TableIndex :=
  { value := self.tables.length }

/-- `Tables::insert` (tables.rs): push the table, map its goal to the new
index, return the index; state-passing style returns the updated registry
alongside the returned index. -/
def Tables.insert (self : Tables) (table : Table) : Tables × TableIndex :=
  let goal := table.table_goal
  let index := self.next_index
  ({ table_indices := hashmap_insert self.table_indices goal index,
     tables := self.tables ++ [table] }, index)

/-- `Tables::index_of` (tables.rs): hash lookup of a canonical goal. -/
def Tables.index_of (self : Tables) (literal : Nat) : Option TableIndex :=
  hashmap_get self.table_indices literal

/-- `Index<TableIndex> for Tables` (tables.rs): `&self.tables[index.value]`;
`none` models the fatal out-of-range panic. -/
def Tables.get_table (self : Tables) (index : TableIndex) : Option Table :=
  self.tables.get? index.value

/-- A registry reachable by a sequence of `insert` calls starting from
`Tables::new` (`index_of`/`next_index` do not change state). -/
def build_tables (ts : List Table) : Tables :=
  ts.foldl (fun s t => (s.insert t).1) Tables.new

/-- The goal stored at sequence position `i`, if any. -/
def goal_at (s : Tables) (i : Nat) : Option Nat :=
  (s.tables.get? i).map Table.table_goal

/-- The spec's registry invariant: the hash index and the record sequence
are a bijection — every stored record has exactly one hash-index entry
mapping its canonical goal to its own position, and every hash-index
entry points at a record whose goal is that key. -/
def bijective (s : Tables) : Prop :=
  (∀ i, i < s.tables.length →
    (s.table_indices.filter
      (fun p => some p.1 == goal_at s i && p.2.value == i)).length = 1)
  ∧ (∀ p ∈ s.table_indices, goal_at s p.2.value = some p.1)

instance (s : Tables) : Decidable (bijective s) := by
  unfold bijective
  infer_instance

/-!
## Claims
-/

/-- C1, counterexample: at a lifetime position whose `current` argument is
the bound-variable wildcard, `may_invalidate` returns `true`
(`aggregate_lifetimes` ignores its arguments), not `false` as the claim
demands for every matching-kind position. -/
theorem c1_counterexample :
    aggregate_generic_args (.lifetime .lstatic) (.lifetime (.boundVar 0)) = some true ∧
    aggregate_generic_args (.lifetime .lstatic) (.lifetime (.boundVar 0)) ≠ some false :=
  ⟨rfl, by decide⟩

/-- C1, amended: at a type position a bound-variable `current` yields
`false` regardless of `new`; at a const position a bound-variable
`current` value yields `false` whenever the type components' comparison
returns `false`; at a lifetime position the comparison returns `true`
unconditionally, bound-variable wildcard or not. -/
theorem c1_amended_thm :
    (∀ (new : Ty) (i : Nat), aggregate_tys new (.boundVar i) = some false) ∧
    (∀ (nt : Ty) (nv : ConstValue) (ct : Ty) (i : Nat),
      aggregate_tys nt ct = some false →
      aggregate_consts (.mk nt nv) (.mk ct (.boundVar i)) = some false) ∧
    (∀ l1 l2 : Lifetime, aggregate_lifetimes l1 l2 = true) := by
  refine ⟨?_, ?_, fun l1 l2 => rfl⟩
  · intro new i
    cases new <;> rfl
  · intro nt nv ct i h
    simp only [aggregate_consts, h]

/-- C1, witness for the amended theorem at concrete inputs. -/
theorem c1_witness :
    aggregate_consts (.mk .str (.concrete 3)) (.mk .str (.boundVar 0)) = some false :=
  c1_amended_thm.2.1 .str (.concrete 3) .str 0 rfl

/-- C5, counterexample: with both const values free inference variables
but differing const types, `aggregate_consts` returns `true` (the early
type comparison short-circuits) instead of aborting. -/
theorem c5_counterexample :
    aggregate_consts (.mk (.scalar 0) (.inferenceVar 0))
        (.mk (.scalar 1) (.inferenceVar 1)) = some true ∧
    aggregate_consts (.mk (.scalar 0) (.inferenceVar 0))
        (.mk (.scalar 1) (.inferenceVar 1)) ≠ none :=
  ⟨rfl, by decide⟩

/-- C5, amended: two free inference variables abort (`none`, the modelled
`panic!`) unconditionally at type positions, and at const-value positions
whenever the const types' comparison returns `false`; if the type
comparison already reports invalidation the values are never examined. -/
theorem c5_amended_thm :
    (∀ v w, aggregate_tys (.inferenceVar v) (.inferenceVar w) = none) ∧
    (∀ (nt ct : Ty) (v w : Nat), aggregate_tys nt ct = some false →
      aggregate_consts (.mk nt (.inferenceVar v)) (.mk ct (.inferenceVar w)) = none) := by
  refine ⟨fun v w => rfl, ?_⟩
  intro nt ct v w h
  simp only [aggregate_consts, h]

/-- C5, witness for the amended theorem at concrete inputs. -/
theorem c5_witness :
    aggregate_consts (.mk .str (.inferenceVar 0)) (.mk .str (.inferenceVar 1)) = none :=
  c5_amended_thm.2 .str .str 0 1 rfl

/-- C6: every kind-mismatched pair of generic arguments makes
`aggregate_generic_args` abort (`none`, the modelled `panic!`), while a
failed unification makes `unify_generic_args_into_ex_clause` return the
ordinary recoverable value `Except.error` with the ex-clause untouched —
the two failure categories live in observably different channels. -/
theorem c6_thm :
    (∀ t l, aggregate_generic_args (.ty t) (.lifetime l) = none) ∧
    (∀ t c, aggregate_generic_args (.ty t) (.const c) = none) ∧
    (∀ l t, aggregate_generic_args (.lifetime l) (.ty t) = none) ∧
    (∀ l c, aggregate_generic_args (.lifetime l) (.const c) = none) ∧
    (∀ c t, aggregate_generic_args (.const c) (.ty t) = none) ∧
    (∀ c l, aggregate_generic_args (.const c) (.lifetime l) = none) ∧
    (∀ e ex_clause,
      unify_generic_args_into_ex_clause (.error e) ex_clause = (.error e, ex_clause)) :=
  ⟨fun _ _ => rfl, fun _ _ => rfl, fun _ _ => rfl, fun _ _ => rfl,
   fun _ _ => rfl, fun _ _ => rfl, fun _ _ => rfl⟩

/-- C8: the four concrete invalidation checks of the spec's wildcard
asymmetry test, both on `aggregate_tys` directly and through
`may_invalidate` on singleton substitutions. -/
theorem c8_thm :
    aggregate_tys (.scalar 7) (.boundVar 0) = some false ∧
    aggregate_tys (.boundVar 0) (.scalar 7) = some true ∧
    aggregate_tys (.scalar 7) (.scalar 7) = some false ∧
    aggregate_tys (.scalar 7) (.scalar 8) = some true ∧
    may_invalidate (.cons (.ty (.scalar 7)) .nil) ⟨.cons (.ty (.boundVar 0)) .nil⟩ = some false ∧
    may_invalidate (.cons (.ty (.boundVar 0)) .nil) ⟨.cons (.ty (.scalar 7)) .nil⟩ = some true ∧
    may_invalidate (.cons (.ty (.scalar 7)) .nil) ⟨.cons (.ty (.scalar 7)) .nil⟩ = some false ∧
    may_invalidate (.cons (.ty (.scalar 7)) .nil) ⟨.cons (.ty (.scalar 8)) .nil⟩ = some true :=
  ⟨rfl, rfl, rfl, rfl, rfl, rfl, rfl, rfl⟩

/-- C10: the bound-variable-wildcard arm precedes the free-inference-
variable panic arm: a bound-variable `current` returns `false` even
against a free-inference-variable `new` (at type positions, and at
const-value positions once the type comparison returns `false`), and the
abort (`none`) is unreachable whenever either type is a bound variable. -/
theorem c10_thm :
    (∀ v i, aggregate_tys (.inferenceVar v) (.boundVar i) = some false) ∧
    (∀ (nt ct : Ty) (v i : Nat), aggregate_tys nt ct = some false →
      aggregate_consts (.mk nt (.inferenceVar v)) (.mk ct (.boundVar i)) = some false) ∧
    (∀ a b : Ty, aggregate_tys a b = none →
      (∀ i, a ≠ .boundVar i) ∧ (∀ i, b ≠ .boundVar i)) := by
  refine ⟨fun v i => rfl, ?_, ?_⟩
  · intro nt ct v i h
    simp only [aggregate_consts, h]
  · intro a b h
    constructor
    · rintro i rfl
      cases b <;> exact Option.noConfusion h
    · rintro i rfl
      cases a <;> exact Option.noConfusion h

/-- C10, witness for the parts with hypotheses at concrete inputs. -/
theorem c10_witness :
    aggregate_consts (.mk .str (.inferenceVar 4)) (.mk .str (.boundVar 0)) = some false ∧
    ((∀ i, Ty.inferenceVar 0 ≠ .boundVar i) ∧ (∀ i, Ty.str ≠ .boundVar i)) :=
  ⟨c10_thm.2.1 .str .str 4 0 rfl, c10_thm.2.2 (.inferenceVar 0) .str rfl⟩

/-- C3: around an arbitrary outcome of the external unifier, the
`?` operator of `unify_generic_args_into_ex_clause` leaves the ex-clause
fully unchanged on failure, and on success with K residual goals appends
exactly those K goals as `Positive` literals (N subgoals become N+K),
leaving the rest of the ex-clause unchanged. -/
theorem c3_thm (ex_clause : ExClause) (outcome : Except NoSolution UnificationResult) :
    (∀ e, outcome = .error e →
      (unify_generic_args_into_ex_clause outcome ex_clause).2 = ex_clause ∧
      (unify_generic_args_into_ex_clause outcome ex_clause).1 = .error e) ∧
    (∀ result, outcome = .ok result →
      (unify_generic_args_into_ex_clause outcome ex_clause).2.subgoals
        = ex_clause.subgoals ++ result.goals.map Literal.positive ∧
      (unify_generic_args_into_ex_clause outcome ex_clause).2.subgoals.length
        = ex_clause.subgoals.length + result.goals.length ∧
      (unify_generic_args_into_ex_clause outcome ex_clause).2.head = ex_clause.head) := by
  constructor
  · rintro e rfl
    exact ⟨rfl, rfl⟩
  · rintro result rfl
    refine ⟨rfl, ?_, rfl⟩
    simp [unify_generic_args_into_ex_clause, into_ex_clause]

/-- C3, witness: a failed unification leaves the one-subgoal ex-clause
intact; a successful one with two residual goals leaves 1+2 subgoals. -/
theorem c3_witness :
    (unify_generic_args_into_ex_clause (.error .noSolution) ⟨0, [.positive 1]⟩).2
      = ⟨0, [.positive 1]⟩ ∧
    (unify_generic_args_into_ex_clause (.ok ⟨[7, 8]⟩) ⟨0, [.positive 1]⟩).2.subgoals.length
      = 1 + 2 := by
  refine ⟨((c3_thm ⟨0, [.positive 1]⟩ (.error .noSolution)).1 .noSolution rfl).1, ?_⟩
  exact ((c3_thm ⟨0, [.positive 1]⟩ (.ok ⟨[7, 8]⟩)).2 ⟨[7, 8]⟩ rfl).2.1

/-- C9: on a nonempty subgoal list, `next_subgoal_index` is the last
position of the list — it addresses the final element, and after a
subgoal is appended it addresses exactly that freshly added subgoal. -/
theorem c9_thm (ex_clause : ExClause) (h : ex_clause.subgoals ≠ []) :
    next_subgoal_index ex_clause + 1 = ex_clause.subgoals.length ∧
    ex_clause.subgoals[next_subgoal_index ex_clause]?
      = some (ex_clause.subgoals.getLast h) ∧
    (∀ (ex2 : ExClause) (lit : Literal), ex2.subgoals = ex_clause.subgoals ++ [lit] →
      ex2.subgoals[next_subgoal_index ex2]? = some lit) := by
  refine ⟨?_, ?_, ?_⟩
  · have hp : 0 < ex_clause.subgoals.length := List.length_pos.mpr h
    unfold next_subgoal_index
    omega
  · rw [List.getLast_eq_getElem]
    exact List.getElem?_eq_getElem _
  · intro ex2 lit h2
    unfold next_subgoal_index
    rw [h2]
    have hl : ex_clause.subgoals.length + 1 - 1 = ex_clause.subgoals.length := by omega
    simp only [List.length_append, List.length_cons, List.length_nil, Nat.zero_add, hl]
    exact List.getElem?_concat_length _ _

/-- C9, witness at a concrete two-subgoal ex-clause. -/
theorem c9_witness :
    next_subgoal_index ⟨0, [.positive 1, .negative 2]⟩ + 1 = 2 :=
  (c9_thm ⟨0, [.positive 1, .negative 2]⟩ (by decide)).1

/-- Structural induction principle for `Substitution` with its own
motive (the mutual family's recursor has one motive per type). -/
def Substitution.inductionOn {motive : Substitution → Prop}
    (s : Substitution)
    (nil : motive .nil)
    (cons : ∀ a rest, motive rest → motive (.cons a rest)) : motive s :=
  match s with
  | .nil => nil
  | .cons a rest => cons a rest (Substitution.inductionOn rest nil cons)
termination_by structural s

/-- Unfolding of `aggregate_substs` on two nonempty substitutions. -/
theorem aggregate_substs_cons_cons (a b : GenericArg) (as bs : Substitution) :
    aggregate_substs (.cons a as) (.cons b bs)
      = match aggregate_generic_args a b with
        | none => none
        | some true => some true
        | some false => aggregate_substs as bs := rfl

/-- If the zipped disjunction reports `true`, some visited pair reports
`true`. -/
theorem aggregate_substs_true : ∀ (s1 s2 : Substitution),
    aggregate_substs s1 s2 = some true →
    ∃ p ∈ s1.toList.zip s2.toList, aggregate_generic_args p.1 p.2 = some true := by
  intro s1
  induction s1 using Substitution.inductionOn with
  | nil =>
    intro s2 h
    exact Bool.noConfusion (Option.some.inj h)
  | cons a as ih =>
    intro s2 h
    cases s2 with
    | nil => exact Bool.noConfusion (Option.some.inj h)
    | cons b bs =>
      rw [aggregate_substs_cons_cons] at h
      cases hab : aggregate_generic_args a b with
      | none =>
        rw [hab] at h
        exact Option.noConfusion h
      | some bv =>
        rw [hab] at h
        cases bv with
        | true =>
          refine ⟨(a, b), ?_, hab⟩
          simp [Substitution.toList]
        | false =>
          obtain ⟨p, hp, hpt⟩ := ih bs h
          refine ⟨p, ?_, hpt⟩
          simp only [Substitution.toList, List.zip_cons_cons, List.mem_cons]
          exact Or.inr hp

/-- If the zipped disjunction reports `false`, every paired position
reports `false`. -/
theorem aggregate_substs_false : ∀ (s1 s2 : Substitution),
    aggregate_substs s1 s2 = some false →
    ∀ p ∈ s1.toList.zip s2.toList, aggregate_generic_args p.1 p.2 = some false := by
  intro s1
  induction s1 using Substitution.inductionOn with
  | nil =>
    intro s2 h p hp
    simp [Substitution.toList] at hp
  | cons a as ih =>
    intro s2 h p hp
    cases s2 with
    | nil => simp [Substitution.toList] at hp
    | cons b bs =>
      rw [aggregate_substs_cons_cons] at h
      cases hab : aggregate_generic_args a b with
      | none =>
        rw [hab] at h
        exact Option.noConfusion h
      | some bv =>
        rw [hab] at h
        cases bv with
        | true => exact Bool.noConfusion (Option.some.inj h)
        | false =>
          simp only [Substitution.toList, List.zip_cons_cons, List.mem_cons] at hp
          rcases hp with rfl | hp
          · exact hab
          · exact ih bs h p hp

/-- C4: whenever `aggregate_name_and_substs` produces a boolean, that
boolean is `true` iff the heads differ or some paired argument of the two
substitutions invalidates; equal heads with different substitution-list
lengths abort (`none`, the modelled failed `assert_eq!`) instead of
producing a boolean; and every nominal-head arm of `aggregate_tys`
(ADT, associated type, tuple, opaque type, function definition, closure,
generator, generator witness, projection, opaque alias) is exactly
`aggregate_name_and_substs` on the head and substitution pair. -/
theorem c4_thm :
    (∀ (n1 n2 : Nat) (s1 s2 : Substitution) (b : Bool),
      aggregate_name_and_substs n1 s1 n2 s2 = some b →
      (b = true ↔ (n1 ≠ n2 ∨ ∃ p ∈ s1.toList.zip s2.toList,
        aggregate_generic_args p.1 p.2 = some true))) ∧
    (∀ (n : Nat) (s1 s2 : Substitution), s1.length ≠ s2.length →
      aggregate_name_and_substs n s1 n s2 = none) ∧
    (∀ (n1 n2 : Nat) (s1 s2 : Substitution),
      aggregate_tys (.adt n1 s1) (.adt n2 s2) = aggregate_name_and_substs n1 s1 n2 s2 ∧
      aggregate_tys (.associatedType n1 s1) (.associatedType n2 s2)
        = aggregate_name_and_substs n1 s1 n2 s2 ∧
      aggregate_tys (.tuple n1 s1) (.tuple n2 s2) = aggregate_name_and_substs n1 s1 n2 s2 ∧
      aggregate_tys (.opaqueType n1 s1) (.opaqueType n2 s2)
        = aggregate_name_and_substs n1 s1 n2 s2 ∧
      aggregate_tys (.fnDef n1 s1) (.fnDef n2 s2) = aggregate_name_and_substs n1 s1 n2 s2 ∧
      aggregate_tys (.closure n1 s1) (.closure n2 s2) = aggregate_name_and_substs n1 s1 n2 s2 ∧
      aggregate_tys (.generator n1 s1) (.generator n2 s2)
        = aggregate_name_and_substs n1 s1 n2 s2 ∧
      aggregate_tys (.generatorWitness n1 s1) (.generatorWitness n2 s2)
        = aggregate_name_and_substs n1 s1 n2 s2 ∧
      aggregate_tys (.aliasProjection n1 s1) (.aliasProjection n2 s2)
        = aggregate_name_and_substs n1 s1 n2 s2 ∧
      aggregate_tys (.aliasOpaque n1 s1) (.aliasOpaque n2 s2)
        = aggregate_name_and_substs n1 s1 n2 s2) := by
  refine ⟨?_, ?_, ?_⟩
  · intro n1 n2 s1 s2 b h
    unfold aggregate_name_and_substs at h
    by_cases hn : n1 = n2
    · subst hn
      rw [if_neg (by simp)] at h
      by_cases hl : s1.length = s2.length
      · rw [if_neg (by simp [hl])] at h
        constructor
        · intro hb
          subst hb
          exact Or.inr (aggregate_substs_true s1 s2 h)
        · rintro (hne | ⟨p, hp, hpt⟩)
          · exact absurd rfl hne
          · cases b with
            | true => rfl
            | false =>
              rw [aggregate_substs_false s1 s2 h p hp] at hpt
              exact Option.some.inj hpt
      · rw [if_pos (by simpa using hl)] at h
        exact Option.noConfusion h
    · rw [if_pos (by simpa using hn)] at h
      constructor
      · intro _
        exact Or.inl hn
      · intro _
        exact (Option.some.inj h).symm
  · intro n s1 s2 hl
    unfold aggregate_name_and_substs
    rw [if_neg (by simp), if_pos (by simpa using hl)]
  · intro n1 n2 s1 s2
    exact ⟨rfl, rfl, rfl, rfl, rfl, rfl, rfl, rfl, rfl, rfl⟩

/-- C4, witness: concrete instances of the two hypothesis-bearing parts —
differing heads give `true`, and an equal head with substitution lengths
1 and 0 aborts. -/
theorem c4_witness :
    ((true = true) ↔ (0 ≠ 1 ∨ ∃ p ∈ (Substitution.nil.toList.zip Substitution.nil.toList),
      aggregate_generic_args p.1 p.2 = some true)) ∧
    aggregate_name_and_substs 5 (.cons (.ty .str) .nil) 5 .nil = none :=
  ⟨c4_thm.1 0 1 .nil .nil true rfl,
   c4_thm.2.1 5 (.cons (.ty .str) .nil) .nil (by decide)⟩

/-- The hash-index contents of a registry built by inserting `ts` with
pairwise-distinct goals, with positions starting at `n`. -/
def index_entries : List Table → Nat → List (Nat × TableIndex)
  | [], _ => []
  | t :: rest, n => (t.table_goal, ⟨n⟩) :: index_entries rest (n + 1)

/-- `(some a == some b) = (a == b)` for the `Option Nat` instance. -/
theorem some_beq_some (a b : Nat) : (some a == some b) = (a == b) := rfl

theorem index_entries_append (xs : List Table) (t : Table) :
    ∀ n, index_entries (xs ++ [t]) n
      = index_entries xs n ++ [(t.table_goal, ⟨n + xs.length⟩)] := by
  induction xs with
  | nil => intro n; simp [index_entries]
  | cons x xs ih =>
    intro n
    have h1 : n + 1 + xs.length = n + (xs.length + 1) := by omega
    simp only [List.cons_append, index_entries, List.append_eq, ih (n + 1), h1,
      List.length_cons]

theorem index_entries_any (g : Nat) : ∀ (ts : List Table) (n : Nat),
    (index_entries ts n).any (fun p => p.1 == g) = ts.any (fun t => t.table_goal == g) := by
  intro ts
  induction ts with
  | nil => intro n; rfl
  | cons t rest ih => intro n; simp [index_entries, ih]

theorem mem_index_entries : ∀ (ts : List Table) (n : Nat) (q : Nat × TableIndex),
    q ∈ index_entries ts n →
    ∃ j, j < ts.length ∧ q.2.value = n + j ∧ (ts.get? j).map Table.table_goal = some q.1 := by
  intro ts
  induction ts with
  | nil =>
    intro n q hq
    simp [index_entries] at hq
  | cons t rest ih =>
    intro n q hq
    simp only [index_entries, List.mem_cons] at hq
    rcases hq with rfl | hq
    · exact ⟨0, by simp, rfl, rfl⟩
    · obtain ⟨j, hj, hv, hg⟩ := ih (n + 1) q hq
      refine ⟨j + 1, by simp only [List.length_cons]; omega, by omega, ?_⟩
      simpa using hg

theorem index_entries_filter_nil (g j : Nat) : ∀ (ts : List Table) (n : Nat),
    g ∉ ts.map Table.table_goal →
    (index_entries ts n).filter (fun p => p.1 == g && p.2.value == j) = [] := by
  intro ts
  induction ts with
  | nil => intro n _; rfl
  | cons t rest ih =>
    intro n hg
    simp only [List.map_cons, List.mem_cons, not_or] at hg
    simp only [index_entries, List.filter_cons]
    rw [if_neg (by
      simp only [Bool.and_eq_true, beq_iff_eq, not_and]
      intro hc
      exact absurd hc.symm hg.1)]
    exact ih (n + 1) hg.2

theorem index_entries_count : ∀ (ts : List Table) (i n g : Nat),
    (ts.get? i).map Table.table_goal = some g →
    (ts.map Table.table_goal).Nodup →
    ((index_entries ts n).filter (fun p => p.1 == g && p.2.value == n + i)).length = 1 := by
  intro ts
  induction ts with
  | nil =>
    intro i n g hg _
    simp at hg
  | cons t rest ih =>
    intro i n g hg hnd
    simp only [List.map_cons, List.nodup_cons] at hnd
    cases i with
    | zero =>
      simp only [List.get?_cons_zero, Option.map_some'] at hg
      have hgt : g = t.table_goal := (Option.some.inj hg).symm
      subst hgt
      simp only [index_entries, List.filter_cons]
      rw [if_pos (by simp)]
      rw [index_entries_filter_nil _ _ rest (n + 1) hnd.1]
      rfl
    | succ j =>
      simp only [List.get?_cons_succ] at hg
      simp only [index_entries, List.filter_cons]
      rw [if_neg (by
        simp only [Bool.and_eq_true, beq_iff_eq, not_and]
        intro _
        omega)]
      have heq : n + (j + 1) = (n + 1) + j := by omega
      rw [heq]
      exact ih j (n + 1) g hg hnd.2

/-- The exact contents of a registry built from distinct-goal inserts:
the record sequence is the insert sequence and the hash index is one
entry per record, keyed by its goal, pointing at its position. -/
theorem build_tables_spec : ∀ (ts : List Table),
    (ts.map Table.table_goal).Nodup →
    (build_tables ts).tables = ts ∧ (build_tables ts).table_indices = index_entries ts 0 := by
  intro ts
  induction ts using List.reverseRecOn with
  | nil => intro _; exact ⟨rfl, rfl⟩
  | append_singleton xs t ih =>
    intro h
    have hnd : (xs.map Table.table_goal).Nodup ∧ t.table_goal ∉ xs.map Table.table_goal := by
      rw [List.map_append] at h
      have h2 := List.nodup_append.mp h
      refine ⟨h2.1, fun hm => h2.2.2 hm ?_⟩
      simp
    obtain ⟨ht, hi⟩ := ih hnd.1
    have hstep : build_tables (xs ++ [t]) = ((build_tables xs).insert t).1 := by
      simp [build_tables, List.foldl_append]
    have hany : (index_entries xs 0).any (fun p => p.1 == t.table_goal) = false := by
      rw [index_entries_any]
      simp only [List.any_eq_false]
      intro x hx
      simp only [beq_iff_eq]
      intro hxg
      exact hnd.2 (hxg ▸ List.mem_map_of_mem Table.table_goal hx)
    constructor
    · rw [hstep]
      simp [Tables.insert, ht]
    · rw [hstep]
      simp only [Tables.insert, Tables.next_index, hashmap_insert, hi, ht, hany,
        Bool.false_eq_true, if_false]
      rw [index_entries_append]
      simp

/-- C2, counterexample: calling `insert` twice with two tables carrying
the same canonical goal leaves two live records but a single hash-index
entry (the `FxHashMap` insert overwrites), so the record at position 0 no
longer has any index entry pointing at it — the bijection claimed to hold
"including after insert is called twice with the same canonical goal"
fails. -/
theorem c2_counterexample :
    ¬ bijective (build_tables [⟨0, 0⟩, ⟨0, 1⟩]) := by decide

/-- C2, amended: for every registry reachable by `new`/`insert`/`index_of`
in which the inserted tables carry pairwise-distinct canonical goals, the
hash index and the record sequence are a bijection — each stored record
has exactly one index entry mapping its goal to its own position, and
every index entry points at a record whose goal is that key.  Duplicate
insertion of the same canonical goal (which the registry does not
prevent) breaks the bijection. -/
theorem c2_amended_thm (ts : List Table)
    (h : (ts.map Table.table_goal).Nodup) :
    bijective (build_tables ts) := by
  obtain ⟨ht, hi⟩ := build_tables_spec ts h
  constructor
  · intro i hlen
    rw [ht] at hlen
    have hg : (ts.get? i).map Table.table_goal
        = some ((ts.get ⟨i, hlen⟩).table_goal) := by
      rw [List.get?_eq_get hlen]
      rfl
    have hcount := index_entries_count ts i 0 ((ts.get ⟨i, hlen⟩).table_goal) hg h
    rw [hi]
    have hgoal_at : goal_at (build_tables ts) i
        = some ((ts.get ⟨i, hlen⟩).table_goal) := by
      simp only [goal_at, ht, hg]
    rw [hgoal_at]
    simpa [some_beq_some] using hcount
  · intro p hp
    rw [hi] at hp
    obtain ⟨j, hj, hv, hg⟩ := mem_index_entries ts 0 p hp
    simp only [goal_at, ht, hv, Nat.zero_add]
    exact hg

/-- C2, witness for the amended theorem: two distinct-goal inserts form a
bijective registry. -/
theorem c2_witness : bijective (build_tables [⟨0, 0⟩, ⟨1, 1⟩]) :=
  c2_amended_thm [⟨0, 0⟩, ⟨1, 1⟩] (by decide)

/-- C7: `next_index` is a pure observation returning exactly the index
the next `insert` hands out; after inserting tables `a` then `b` with
distinct goals on a fresh registry, `index_of` finds them at positions 0
and 1, indexed access returns the records themselves, and a third,
never-inserted goal is not found. -/
theorem c7_thm (a b : Table) (g : Nat)
    (hab : a.table_goal ≠ b.table_goal) (hga : g ≠ a.table_goal)
    (hgb : g ≠ b.table_goal) :
    (∀ (s : Tables) (t : Table), (s.insert t).2 = s.next_index) ∧
    ((Tables.new.insert a).1.insert b).1.index_of a.table_goal = some ⟨0⟩ ∧
    ((Tables.new.insert a).1.insert b).1.index_of b.table_goal = some ⟨1⟩ ∧
    ((Tables.new.insert a).1.insert b).1.get_table ⟨0⟩ = some a ∧
    ((Tables.new.insert a).1.insert b).1.get_table ⟨1⟩ = some b ∧
    ((Tables.new.insert a).1.insert b).1.index_of g = none := by
  have h1 : (a.table_goal == b.table_goal) = false := beq_eq_false_iff_ne.mpr hab
  have h2 : (a.table_goal == g) = false := beq_eq_false_iff_ne.mpr (Ne.symm hga)
  have h3 : (b.table_goal == g) = false := beq_eq_false_iff_ne.mpr (Ne.symm hgb)
  refine ⟨fun s t => rfl, ?_, ?_, ?_, ?_, ?_⟩ <;>
    simp [Tables.insert, Tables.new, Tables.next_index, Tables.index_of,
      Tables.get_table, hashmap_insert, hashmap_get, List.find?, h1, h2, h3]

/-- C7, witness at concrete tables with goals 0, 1 and probe goal 2. -/
theorem c7_witness :
    ((Tables.new.insert ⟨0, 10⟩).1.insert ⟨1, 11⟩).1.index_of 0 = some ⟨0⟩ ∧
    ((Tables.new.insert ⟨0, 10⟩).1.insert ⟨1, 11⟩).1.index_of 2 = none := by
  refine ⟨?_, ?_⟩
  · exact (c7_thm ⟨0, 10⟩ ⟨1, 11⟩ 2 (by decide) (by decide) (by decide)).2.1
  · exact (c7_thm ⟨0, 10⟩ ⟨1, 11⟩ 2 (by decide) (by decide) (by decide)).2.2.2.2.2

end ChalkEngine
